import Mathlib

/-!
Shallow embedding of the Yarn Spinner dialogue runtime (Go): the value
model and conversions (`convert.go`), the built-in function library
(`funcs.go`), the opcode handlers of the virtual machine (`vm.go`), the
line renderer, and the async adapter state machine.

Modelling conventions:
* Go's `interface{}` stack/variable values are embedded as the tagged
  union `Value` (null, bool, float32, float64, int, string), matching the
  value union the spec and the VM use.
* Floating-point numbers are abstracted as exact rationals plus an
  explicit NaN (`Flt := Option ℚ`, `none` = NaN).  Rounding and
  infinities are not modelled; none of the verified properties depend on
  them.
* Errors are embedded by their kind: Go wraps errors with `%w`, which
  preserves `errors.Is` identity, so `ErrKind` carries exactly the
  sentinel that `errors.Is` would match (or `other`/`strconvError` for
  ad-hoc and standard-library errors).
* Calls into the `DialogueHandler` are recorded as an explicit event
  trace, so that "calls DialogueComplete" / "does not call Options" are
  statable.
-/

namespace Yarn

/-- Abstracted floating-point values: `none` is NaN, `some q` a finite
value as an exact rational. -/
abbrev Flt := Option ℚ

/-- The runtime value union {null, bool, float32, float64, int, string}
(Go `interface{}` as used by the VM stack and variable storage). -/
inductive Value where
  | null
  | b (x : Bool)
  | f32 (x : Flt)
  | f64 (x : Flt)
  | i (x : ℤ)
  | s (x : String)
  deriving DecidableEq, Repr

/-- Error kinds.  Sentinel errors from `vm.go` keep their identity under
Go's `%w` wrapping, so a kind models the `errors.Is`-relevant identity of
an error.  `strconvError` stands for a `strconv` parse failure (carrying
the offending input), `other` for an ad-hoc `fmt.Errorf` error. -/
inductive ErrKind where
  | noOptions
  | stackUnderflow
  | wrongType
  | notConvertible
  | nodeNotFound
  | labelNotFound
  | nilOperand
  | functionNotFound
  | functionArgMismatch
  | stop
  | strconvError (input : String)
  | other (msg : String)
  | outOfFuel
  deriving DecidableEq, Repr

/-- Is every character of the (nonempty) list a decimal digit? -/
def allDigits (cs : List Char) : Bool := cs.all (fun c => c.isDigit)

/-- Digits to a natural number (most significant first). -/
def digitsToNat (cs : List Char) : ℕ :=
  cs.foldl (fun n c => 10 * n + (c.toNat - ('0').toNat)) 0

/-- Model of Go `strconv.Atoi`: optional sign followed by at least one
digit; anything else fails.  (Overflow is not modelled.) -/
def atoi (str : String) : Except ErrKind ℤ :=
  match str.toList with
  | [] => .error (.strconvError str)
  | '-' :: cs =>
      if cs ≠ [] ∧ allDigits cs then .ok (-(digitsToNat cs : ℤ))
      else .error (.strconvError str)
  | '+' :: cs =>
      if cs ≠ [] ∧ allDigits cs then .ok ((digitsToNat cs : ℤ))
      else .error (.strconvError str)
  | cs =>
      if allDigits cs then .ok ((digitsToNat cs : ℤ))
      else .error (.strconvError str)

/-- Model of Go `strconv.ParseFloat` restricted to plain decimal forms:
optional sign, integer digits, optional fractional digits.  Exponents,
hex floats and named values are not modelled; all that the verified
properties need is that numeric strings parse and junk fails. -/
def parseFloatCore (str : String) (cs : List Char) : Except ErrKind ℚ :=
  match cs.splitOn '.' with
  | [ip] =>
      if ip ≠ [] ∧ allDigits ip then .ok ((digitsToNat ip : ℚ))
      else .error (.strconvError str)
  | [ip, fp] =>
      if ip ≠ [] ∧ allDigits ip ∧ allDigits fp then
        .ok ((digitsToNat ip : ℚ) + (digitsToNat fp : ℚ) / ((10 : ℚ) ^ fp.length))
      else .error (.strconvError str)
  | _ => .error (.strconvError str)

/-- See `parseFloatCore` for the decimal grammar. -/
def parseFloat (str : String) : Except ErrKind ℚ :=
  match str.toList with
  | '-' :: cs => (parseFloatCore str cs).map (fun q => -q)
  | '+' :: cs => parseFloatCore str cs
  | cs => parseFloatCore str cs

/-- Go float-to-int conversion `int(t)`: truncation toward zero.  (For
NaN the Go result is platform-specific; we pick 0, which no verified
property depends on.) -/
def fltToInt : Flt → ℤ
  | none => 0
  | some q => if 0 ≤ q then ⌊q⌋ else ⌈q⌉

/-- `ConvertToBool` (convert.go): null→false, bool→itself,
float→(not NaN and non-zero), int→non-zero, string→non-empty. -/
def ConvertToBool : Value → Except ErrKind Bool
  | .null => .ok false
  | .b x => .ok x
  | .f32 x => .ok (match x with | none => false | some q => decide (q ≠ 0))
  | .f64 x => .ok (match x with | none => false | some q => decide (q ≠ 0))
  | .i x => .ok (decide (x ≠ 0))
  | .s x => .ok (decide (x ≠ ""))

/-- `ConvertToInt` (convert.go): null→0, bool→1/0, floats truncate,
int→itself, string→`strconv.Atoi`. -/
def ConvertToInt : Value → Except ErrKind ℤ
  | .null => .ok 0
  | .b x => .ok (if x then 1 else 0)
  | .f32 x => .ok (fltToInt x)
  | .f64 x => .ok (fltToInt x)
  | .i x => .ok x
  | .s x => atoi x

/-- `ConvertToFloat32` (convert.go): null→0, bool→1/0, floats pass
through, int→itself, string→`strconv.ParseFloat`. -/
def ConvertToFloat32 : Value → Except ErrKind Flt
  | .null => .ok (some 0)
  | .b x => .ok (some (if x then 1 else 0))
  | .f32 x => .ok x
  | .f64 x => .ok x
  | .i x => .ok (some (x : ℚ))
  | .s x => (parseFloat x).map some

/-- `ConvertToFloat64` (convert.go); identical structure to
`ConvertToFloat32` under the rational abstraction. -/
def ConvertToFloat64 : Value → Except ErrKind Flt
  | .null => .ok (some 0)
  | .b x => .ok (some (if x then 1 else 0))
  | .f32 x => .ok x
  | .f64 x => .ok x
  | .i x => .ok (some (x : ℚ))
  | .s x => (parseFloat x).map some

/-- Deterministic stand-in for Go's `fmt.Sprint` on the abstracted float
values (the exact digit string is irrelevant to every verified
property). -/
def fmtFlt : Flt → String
  | none => "NaN"
  | some q => if q.den = 1 then toString q.num else toString q.num ++ "/" ++ toString q.den

/-- `ConvertToString` (convert.go): nil becomes "null", booleans are
title-cased, everything else is formatted with `fmt.Sprint`. -/
def ConvertToString : Value → String
  | .null => "null"
  | .b x => if x then "True" else "False"
  | .f32 x => fmtFlt x
  | .f64 x => fmtFlt x
  | .i x => toString x
  | .s x => x

/-- NaN-propagating addition on abstracted floats (IEEE addition of
finite values is exact rational addition; NaN + x = NaN). -/
def fadd : Flt → Flt → Flt
  | none, _ => none
  | _, none => none
  | some a, some b => some (a + b)

/-- `funcAdd` (funcs.go): the built-in polymorphic `Add`.  Null returns
the other operand; a string operand concatenates (converting the other
side to string); otherwise the right operand is converted to the left
operand's numeric type and added (bools upconvert both sides to
float32). -/
def funcAdd (x y : Value) : Except ErrKind Value :=
  if x = .null then .ok y
  else if y = .null then .ok x
  else
    match x with
    | .s xt => .ok (.s (xt ++ ConvertToString y))
    | _ =>
      match y with
      | .s yt => .ok (.s (ConvertToString x ++ yt))
      | _ =>
        match x with
        | .b _ => do
            let xtt ← ConvertToFloat32 x
            let yt ← ConvertToFloat32 y
            .ok (.f32 (fadd xtt yt))
        | .f32 xt => do
            let yt ← ConvertToFloat32 y
            .ok (.f32 (fadd xt yt))
        | .f64 xt => do
            let yt ← ConvertToFloat64 y
            .ok (.f64 (fadd xt yt))
        | .i xt => do
            let yt ← ConvertToInt y
            .ok (.i (xt + yt))
        | _ => .error (.other "unsupported type")

/-! ## Virtual machine state and opcode handlers (vm.go) -/

/-- A `Line` as delivered to the handler. -/
structure Line where
  ID : String
  Substitutions : List String
  deriving DecidableEq, Repr, Inhabited

/-- An `Option` in the VM's pending options buffer (named `Opt` here to
avoid clashing with Lean's `Option`). -/
structure Opt where
  ID : ℤ
  Line : Line
  DestinationNode : String
  IsAvailable : Bool
  deriving DecidableEq, Repr, Inhabited

/-- The VM's per-run mutable state (`state` in vm.go): program counter,
operand stack (top of stack at the head of the list; Go appends to the
end of a slice), and pending options buffer. -/
structure VMSt where
  pc : ℕ
  stack : List Value
  options : List Opt
  deriving DecidableEq, Repr

/-- Handler calls recorded while executing an instruction. -/
inductive HEvent where
  | dialogueComplete
  | optionsCall (opts : List Opt)
  deriving DecidableEq, Repr

/-- `execShowOptions` (vm.go).  The handler's `Options` method is
embedded as the `chooser` function (its error is wrapped with `%w` in Go,
preserving the kind).  The result is the trace of handler calls made, the
state after execution, and the error if any. -/
def execShowOptions (chooser : List Opt → Except ErrKind ℤ) (st : VMSt) :
    List HEvent × VMSt × Option ErrKind :=
  if st.options = [] then
    ([.dialogueComplete], st, some .noOptions)
  else
    match chooser st.options with
    | .error e => ([.optionsCall st.options], st, some e)
    | .ok index =>
        if index < 0 ∨ (st.options.length : ℤ) ≤ index then
          ([.optionsCall st.options], st,
            some (.other ("selected option " ++ toString index ++ " out of bounds")))
        else
          ([.optionsCall st.options],
            { st with
              stack := .s ((st.options.getD index.toNat default).DestinationNode) :: st.stack
              options := []
              pc := st.pc + 1 },
            none)

/-- Variable storage (an assoc list embedding of the `VariableStorage`
map; `SetValue` replaces any existing entry for the key). -/
abbrev VarStorage := List (String × Value)

/-- `GetValue`. -/
def getValue (vars : VarStorage) (k : String) : Option Value :=
  (vars.find? (fun p => p.1 == k)).map Prod.snd

/-- `SetValue`. -/
def setValue (vars : VarStorage) (k : String) (v : Value) : VarStorage :=
  (k, v) :: vars.filter (fun p => !(p.1 == k))

/-- `execStoreVariable` (vm.go): peek (no pop) the top of the stack into
the named variable, then advance the PC. -/
def execStoreVariable (k : String) (st : VMSt) (vars : VarStorage) :
    VMSt × VarStorage × Option ErrKind :=
  match st.stack with
  | [] => (st, vars, some .stackUnderflow)
  | v :: _ => ({ st with pc := st.pc + 1 }, setValue vars k v, none)

/-- A program operand value: the protobuf `Operand` oneof, which per the
data model is one of {bool, float, string}. -/
inductive OperandValue where
  | ob (x : Bool)
  | of (x : Flt)
  | os (x : String)
  deriving DecidableEq, Repr

/-- The value pushed for an initial value: bool, float32, or string. -/
def operandValueToValue : OperandValue → Value
  | .ob x => .b x
  | .of x => .f32 x
  | .os x => .s x

/-- `execPushVariable` (vm.go): push the stored value if the variable is
set; else push the program's initial value if present; else push null. -/
def execPushVariable (k : String) (st : VMSt) (vars : VarStorage)
    (initialValues : List (String × OperandValue)) : VMSt × Option ErrKind :=
  match getValue vars k with
  | some v => ({ st with pc := st.pc + 1, stack := v :: st.stack }, none)
  | none =>
      match (initialValues.find? (fun p => p.1 == k)).map Prod.snd with
      | none => ({ st with pc := st.pc + 1, stack := .null :: st.stack }, none)
      | some w =>
          ({ st with pc := st.pc + 1, stack := operandValueToValue w :: st.stack }, none)

/-! ## CALL_FUNC (vm.go execCallFunc)

Go reflection is embedded as an explicit function signature: the list of
declared parameter types (for a variadic function the final entry is the
element type of the variadic slice), a variadic flag, the return shape,
and an implementation on the value union. -/

/-- A declared parameter type of a FuncMap function: the five convertible
types, or `interface{}` (to which every value is assignable). -/
inductive ParamType where
  | pbool
  | pint
  | pfloat32
  | pfloat64
  | pstring
  | pany
  deriving DecidableEq, Repr

/-- The return shape of a FuncMap function: none, a single value, a
single error, value-plus-error, or an unsupported shape (two returns with
a non-error second, or more than two). -/
inductive RetShape where
  | nothing
  | value
  | justError
  | valueError
  | unsupported
  deriving DecidableEq, Repr

/-- A FuncMap function: declared signature plus an implementation (the
implementation models `reflect.Call` together with extraction of the
trailing error and the first return value). -/
structure GoFunc where
  params : List ParamType
  variadic : Bool
  ret : RetShape
  impl : List Value → Except ErrKind (Option Value)

/-- Is a runtime value directly assignable to a declared parameter type
(`reflect.Type.AssignableTo`)?  Everything is assignable to
`interface{}`. -/
def valueAssignableTo : Value → ParamType → Bool
  | _, .pany => true
  | .b _, .pbool => true
  | .i _, .pint => true
  | .f32 _, .pfloat32 => true
  | .f64 _, .pfloat64 => true
  | .s _, .pstring => true
  | _, _ => false

/-- `reflect.Zero` at a declared parameter type, substituted for a nil
argument. -/
def zeroOf : ParamType → Value
  | .pbool => .b false
  | .pint => .i 0
  | .pfloat32 => .f32 (some 0)
  | .pfloat64 => .f64 (some 0)
  | .pstring => .s ""
  | .pany => .null

/-- One argument of the CALL_FUNC conversion loop: nil becomes the zero
value; an assignable value passes through; otherwise conversion to the
declared type is attempted, propagating the conversion's own error.  A
non-convertible declared type yields `ErrFunctionArgMismatch` (the
`default:` case, unreachable for the five convertible types). -/
def convertParam (pt : ParamType) (v : Value) : Except ErrKind Value :=
  if v = .null then .ok (zeroOf pt)
  else if valueAssignableTo v pt then .ok v
  else
    match pt with
    | .pstring => .ok (.s (ConvertToString v))
    | .pfloat32 => (ConvertToFloat32 v).map .f32
    | .pfloat64 => (ConvertToFloat64 v).map .f64
    | .pint => (ConvertToInt v).map .i
    | .pbool => (ConvertToBool v).map .b
    | .pany => .error .functionArgMismatch

/-- The declared type of argument number `arg` (0-based): for a variadic
function, arguments at or past the final declared parameter use the
variadic element type. -/
def argTypeFor (f : GoFunc) (arg : ℕ) : ParamType :=
  if f.variadic ∧ f.params.length - 1 ≤ arg then
    f.params.getLastD .pany
  else
    f.params.getD arg .pany

/-- The CALL_FUNC argument loop: pop `n` arguments (the argument with the
highest index is popped first), converting each to its declared type.
Returns the stack as left by the pops performed so far, and either the
parameter list in declaration order or the first error encountered. -/
def convertArgs (f : GoFunc) : ℕ → List Value → List Value × Except ErrKind (List Value)
  | 0, stack => (stack, .ok [])
  | _ + 1, [] => ([], .error .stackUnderflow)
  | n + 1, v :: rest =>
      match convertParam (argTypeFor f n) v with
      | .error e => (rest, .error e)
      | .ok p =>
          match convertArgs f n rest with
          | (stk, .error e) => (stk, .error e)
          | (stk, .ok ps) => (stk, .ok (ps ++ [p]))

/-- The arity check of execCallFunc: a variadic function needs at least
`NumIn() - 1` arguments, a non-variadic function exactly `NumIn()`. -/
def arityOk (f : GoFunc) (gotArgc : ℤ) : Bool :=
  if f.variadic then decide ((f.params.length : ℤ) - 1 ≤ gotArgc)
  else decide (gotArgc = (f.params.length : ℤ))

/-- The return-shape check of execCallFunc: 0 or 1 returns are fine; with
2 the second must be `error`. -/
def retOk : RetShape → Bool
  | .unsupported => false
  | _ => true

/-- `execCallFunc` (vm.go): look up the function, pop the argument count,
check arity and return shape, pop and convert the arguments, increment
the PC, call, propagate a returned error, and push a returned value. -/
def execCallFunc (funcname : String) (funcmap : List (String × GoFunc)) (st : VMSt) :
    VMSt × Option ErrKind :=
  match (funcmap.find? (fun p => p.1 == funcname)).map Prod.snd with
  | none => (st, some .functionNotFound)
  | some f =>
      match st.stack with
      | [] => (st, some .stackUnderflow)
      | gotx :: rest =>
          match ConvertToInt gotx with
          | .error e => ({ st with stack := rest }, some e)
          | .ok gotArgc =>
              if ¬arityOk f gotArgc then
                ({ st with stack := rest }, some .functionArgMismatch)
              else if ¬retOk f.ret then
                ({ st with stack := rest }, some .functionArgMismatch)
              else
                match convertArgs f gotArgc.toNat rest with
                | (stk, .error e) => ({ st with stack := stk }, some e)
                | (stk, .ok params) =>
                    let st1 : VMSt := { st with stack := stk, pc := st.pc + 1 }
                    match f.impl params with
                    | .error e => (st1, some e)
                    | .ok none => (st1, none)
                    | .ok (some v) => ({ st1 with stack := v :: st1.stack }, none)

/-! ## Async adapter (AsyncAdapter) -/

/-- The four lifecycle states of the async adapter. -/
inductive VMState where
  | running
  | paused
  | pausedOptions
  | stopped
  deriving DecidableEq, Repr

/-- Messages sent on the adapter's channel. -/
inductive AsyncMsg where
  | goMsg
  | choiceMsg (id : ℤ)
  | abortMsg (e : ErrKind)
  deriving DecidableEq, Repr

/-- The async adapter: lifecycle state plus the queue of messages sent on
its channel (sequential embedding of the atomic state plus channel). -/
structure AsyncAdapter where
  state : VMState
  msgs : List AsyncMsg
  deriving DecidableEq, Repr

/-- `VMStateMismatchErr`: the adapter was in state `Got` but had to be in
state `Want` in order to move to state `Next`. -/
structure VMStateMismatchErr where
  Got : VMState
  Want : VMState
  Next : VMState
  deriving DecidableEq, Repr

/-- `stateTransition`: compare-and-swap from `old` to `new`; on mismatch
the state is unchanged and a `VMStateMismatchErr` is returned. -/
def stateTransition (a : AsyncAdapter) (old new : VMState) :
    AsyncAdapter × Option VMStateMismatchErr :=
  if a.state = old then ({ a with state := new }, none)
  else (a, some ⟨a.state, old, new⟩)

/-- `AsyncAdapter.Go`: transition Paused → Running, then send `goMsg`. -/
def AsyncAdapter.Go (a : AsyncAdapter) : AsyncAdapter × Option VMStateMismatchErr :=
  match stateTransition a .paused .running with
  | (_, some e) => (a, some e)
  | (a1, none) => ({ a1 with msgs := a1.msgs ++ [.goMsg] }, none)

/-- `AsyncAdapter.GoWithChoice`: transition PausedOptions → Running, then
send `choiceMsg id`. -/
def AsyncAdapter.GoWithChoice (a : AsyncAdapter) (id : ℤ) :
    AsyncAdapter × Option VMStateMismatchErr :=
  match stateTransition a .pausedOptions .running with
  | (_, some e) => (a, some e)
  | (a1, none) => ({ a1 with msgs := a1.msgs ++ [.choiceMsg id] }, none)

/-! ## Line renderer

The parsed line grammar (participle AST) and the `lineRenderer`.  The
locale-dependent CLDR plural machinery (`cldr.NewOperands`,
`plural.Rules.MatchPlural`, `formKeyTable`) is an external library; it is
embedded as the parameter `pf : Bool → String → Except ErrKind String`
taking the cardinal/ordinal flag and the input string to the selected
form key (or the error from operand parsing / the form bound check).
Recursion is fuel-indexed; running out of fuel is a distinguished error,
so every property proved about successful renders is unaffected. -/

/-- An attribute produced by markup tags: a byte range (here, character
positions in the abstracted output string), tag name and properties. -/
structure Attribute where
  Start : ℕ
  End : ℕ
  Name : String
  Props : List (String × String)
  deriving DecidableEq, Repr

/-- An attributed string: rendered text plus attributes. -/
structure AttributedString where
  Str : String
  Attributes : List Attribute
  deriving DecidableEq, Repr

mutual

/-- A `fragment` of a parsed line: exactly one of the participle struct's
fields is populated, so it embeds as a sum. -/
inductive Fragment where
  | escaped (s : String)
  | markup (t : MarkupTag)
  | subst (idx : String)
  | text (s : String)

/-- A `parsedMarkupTag`: the slashes are modelled as flags (Go stores "/"
or ""). -/
inductive MarkupTag where
  | mk (openingSlash : Bool) (name : String) (props : List MProp) (closingSlash : Bool)

/-- A `parsedProp` (key="value" or value={0}). -/
inductive MProp where
  | mk (key : String) (value : StringOrSubst)

/-- A `stringOrSubst`: a quoted parsed string (its fragment list) or a
substitution token. -/
inductive StringOrSubst where
  | str (fragments : List Fragment)
  | subst (idx : String)

end

/-- Key of a parsed prop. -/
def MProp.key : MProp → String
  | .mk k _ => k

/-- Value of a parsed prop. -/
def MProp.value : MProp → StringOrSubst
  | .mk _ v => v

/-- The `lineRenderer` state: output built so far, completed attributes,
currently-open tags (the Go map name → open attributes as an assoc
list), and the line's substitutions. -/
structure LineRenderer where
  out : String
  attribs : List Attribute
  openTags : List (String × List Attribute)
  substs : List String
  deriving DecidableEq, Repr

/-- `evalSubst`: parse the index; out-of-range or unparseable indices
produce the literal token text, in-range indices the substitution. -/
def evalSubst (substs : List String) (index : String) : String :=
  match atoi index with
  | .error _ => "\x7b" ++ index ++ "\x7d"
  | .ok n =>
      if n < 0 ∨ (substs.length : ℤ) ≤ n then "\x7b" ++ index ++ "\x7d"
      else substs.getD n.toNat ""

/-- `Builder.WriteString`: append to the output. -/
def writeString (L : LineRenderer) (s : String) : LineRenderer :=
  { L with out := L.out ++ s }

/-- Open attributes recorded under a tag name (missing name ↦ []). -/
def lookupTags (m : List (String × List Attribute)) (name : String) : List Attribute :=
  ((m.find? (fun p => p.1 == name)).map Prod.snd).getD []

/-- Map update for the open-tags map. -/
def setTags (m : List (String × List Attribute)) (name : String) (as : List Attribute) :
    List (String × List Attribute) :=
  if (m.find? (fun p => p.1 == name)).isSome then
    m.map (fun p => if p.1 == name then (name, as) else p)
  else m ++ [(name, as)]

/-- Go map semantics for the evaluated props: later duplicate keys win. -/
def mapFromPairs (ps : List (String × String)) : List (String × String) :=
  ps.foldl (fun m kv => m.filter (fun p => !(p.1 == kv.1)) ++ [kv]) []

/-- `openTag` minus prop evaluation: record a new open attribute starting
at the current output length. -/
def openTagOp (L : LineRenderer) (name : String) (props : List (String × String)) :
    LineRenderer :=
  let a : Attribute := { Start := L.out.length, End := 0, Name := name, Props := props }
  { L with openTags := setTags L.openTags name (lookupTags L.openTags name ++ [a]) }

/-- `closeTag`: close the most recently opened attribute of this name at
the current output length; error if none is open. -/
def closeTagOp (L : LineRenderer) (name : String) : Except ErrKind LineRenderer :=
  let as := lookupTags L.openTags name
  match as.getLast? with
  | none => .error (.other ("tag " ++ name ++ " not open"))
  | some a =>
      .ok { L with
              openTags := setTags L.openTags name as.dropLast
              attribs := L.attribs ++ [{ a with End := L.out.length }] }

/-- `closeAll`: close every open attribute at the current output
length. -/
def closeAllOp (L : LineRenderer) : LineRenderer :=
  { L with
      attribs := L.attribs ++
        ((L.openTags.map Prod.snd).flatten.map (fun a => { a with End := L.out.length }))
      openTags := [] }

/-- `propValueForKey`: first prop with the given key. -/
def propValueForKey (props : List MProp) (key : String) : Except ErrKind StringOrSubst :=
  match props.find? (fun p => MProp.key p == key) with
  | some p => .ok (MProp.value p)
  | none => .error (.other ("key " ++ key ++ " not found"))

/-- The plural form key selector abstracting the CLDR library. -/
abbrev PluralFn := Bool → String → Except ErrKind String

mutual

/-- `renderString` over the fragments of a parsed string. -/
def renderFragments (pf : PluralFn) : ℕ → LineRenderer → List Fragment →
    Except ErrKind LineRenderer
  | 0, _, _ => .error .outOfFuel
  | _ + 1, L, [] => .ok L
  | n + 1, L, f :: fs => do
      let L1 ← renderFragment pf n L f
      renderFragments pf n L1 fs

/-- `renderFragment`: escapes drop the backslash, markup dispatches,
substitutions evaluate, text is copied. -/
def renderFragment (pf : PluralFn) : ℕ → LineRenderer → Fragment →
    Except ErrKind LineRenderer
  | 0, _, _ => .error .outOfFuel
  | _ + 1, L, .escaped s => .ok (writeString L (s.drop 1))
  | n + 1, L, .markup t => renderMarkupTag pf n L t
  | _ + 1, L, .subst idx => .ok (writeString L (evalSubst L.substs idx))
  | _ + 1, L, .text s => .ok (writeString L s)

/-- `renderMarkupTag`: format functions, close-all, close, self-closing,
open, and the degenerate `[]` — in the source's case order. -/
def renderMarkupTag (pf : PluralFn) : ℕ → LineRenderer → MarkupTag →
    Except ErrKind LineRenderer
  | 0, _, _ => .error .outOfFuel
  | n + 1, L, .mk osl name props csl =>
      if name = "select" then renderSelectFF pf n L props
      else if name = "plural" then renderPluralFF pf n L props true
      else if name = "ordinal" then renderPluralFF pf n L props false
      else if osl ∧ name = "" then .ok (closeAllOp L)
      else if osl then closeTagOp L name
      else if csl then do
        let L1 ← openTagFull pf n L name props
        closeTagOp L1 name
      else if name ≠ "" then openTagFull pf n L name props
      else .ok (writeString L "[]")

/-- `openTag`: evaluate each prop value into a string, then record the
open attribute. -/
def openTagFull (pf : PluralFn) : ℕ → LineRenderer → String → List MProp →
    Except ErrKind LineRenderer
  | 0, _, _, _ => .error .outOfFuel
  | n + 1, L, name, props => do
      let m ← evalProps pf n L props
      .ok (openTagOp L name (mapFromPairs m))

/-- Prop evaluation loop of `openTag`. -/
def evalProps (pf : PluralFn) : ℕ → LineRenderer → List MProp →
    Except ErrKind (List (String × String))
  | 0, _, _ => .error .outOfFuel
  | _ + 1, _, [] => .ok []
  | n + 1, L, p :: ps => do
      let v ← evalStringOrSubst pf n L (MProp.value p)
      let rest ← evalProps pf n L ps
      .ok ((MProp.key p, v) :: rest)

/-- `evalStringOrSubst`: substitutions evaluate directly; quoted strings
render in a fresh inner renderer whose output string is returned (its
attributes are discarded). -/
def evalStringOrSubst (pf : PluralFn) : ℕ → LineRenderer → StringOrSubst →
    Except ErrKind String
  | 0, _, _ => .error .outOfFuel
  | _ + 1, L, .subst idx => .ok (evalSubst L.substs idx)
  | n + 1, L, .str frags => do
      let inb ← renderFragments pf n
        { out := "", attribs := [], openTags := [], substs := L.substs } frags
      .ok inb.out

/-- `evalValueValue`: evaluate the "value" prop of a format function. -/
def evalValueValue (pf : PluralFn) : ℕ → LineRenderer → List MProp →
    Except ErrKind String
  | 0, _, _ => .error .outOfFuel
  | n + 1, L, props => do
      let val ← propValueForKey props "value"
      evalStringOrSubst pf n L val

/-- `renderSelectFormatFunc`. -/
def renderSelectFF (pf : PluralFn) : ℕ → LineRenderer → List MProp →
    Except ErrKind LineRenderer
  | 0, _, _ => .error .outOfFuel
  | n + 1, L, props => do
      let input ← evalValueValue pf n L props
      let val ← propValueForKey props input
      renderFFValue pf n L val input

/-- `renderPluralFormatFunc` (cardinal or ordinal). -/
def renderPluralFF (pf : PluralFn) : ℕ → LineRenderer → List MProp → Bool →
    Except ErrKind LineRenderer
  | 0, _, _, _ => .error .outOfFuel
  | n + 1, L, props, cardinal => do
      let input ← evalValueValue pf n L props
      let key ← pf cardinal input
      let val ← propValueForKey props key
      renderFFValue pf n L val input

/-- `renderFormatFuncValue`: a subst value is evaluated; a string value
is rendered fragment-by-fragment with `%` replaced by the input. -/
def renderFFValue (pf : PluralFn) : ℕ → LineRenderer → StringOrSubst → String →
    Except ErrKind LineRenderer
  | 0, _, _, _ => .error .outOfFuel
  | _ + 1, L, .subst idx, _ => .ok (writeString L (evalSubst L.substs idx))
  | n + 1, L, .str frags, input => renderFFFrags pf n L frags input

/-- The fragment loop of `renderFormatFuncValue`. -/
def renderFFFrags (pf : PluralFn) : ℕ → LineRenderer → List Fragment → String →
    Except ErrKind LineRenderer
  | 0, _, _, _ => .error .outOfFuel
  | _ + 1, L, [], _ => .ok L
  | n + 1, L, v :: vs, input =>
      match v with
      | .text "%" => renderFFFrags pf n (writeString L input) vs input
      | _ => do
          let L1 ← renderFragment pf n L v
          renderFFFrags pf n L1 vs input

end

/-- `StringTableRow.Render`: render the parsed text of a row in a fresh
renderer and package the attributed string. -/
def renderLine (pf : PluralFn) (fuel : ℕ) (substs : List String)
    (frags : List Fragment) : Except ErrKind AttributedString :=
  match renderFragments pf fuel
      { out := "", attribs := [], openTags := [], substs := substs } frags with
  | .error e => .error e
  | .ok L => .ok { Str := L.out, Attributes := L.attribs }

/-! ## Spec-side helper definitions used by the theorems -/

/-- Total restriction of `ConvertToFloat32`/`ConvertToFloat64` to
non-string values (on which the conversions never fail); used to state
the numeric branch of `Add`. -/
def valueToFlt : Value → Flt
  | .null => some 0
  | .b x => some (if x then 1 else 0)
  | .f32 x => x
  | .f64 x => x
  | .i x => some (x : ℚ)
  | .s _ => none

/-- Total restriction of `ConvertToInt` to non-string values. -/
def valueToInt : Value → ℤ
  | .null => 0
  | .b x => if x then 1 else 0
  | .f32 x => fltToInt x
  | .f64 x => fltToInt x
  | .i x => x
  | .s _ => 0

/-- The numeric addition `Add` performs when neither operand is null nor
a string: the right operand is converted to the left operand's numeric
type and added; bools upconvert both sides to float32. -/
def numAddSpec (x y : Value) : Value :=
  match x with
  | .b _ => .f32 (fadd (valueToFlt x) (valueToFlt y))
  | .f32 q => .f32 (fadd q (valueToFlt y))
  | .f64 q => .f64 (fadd q (valueToFlt y))
  | .i n => .i (n + valueToInt y)
  | _ => .null

/-- A one-parameter `float32` function with no results, used as a
concrete FuncMap entry. -/
def oneFloatFunc : GoFunc :=
  { params := [.pfloat32], variadic := false, ret := .nothing, impl := fun _ => .ok none }

/-- Renderer invariant: every completed attribute closed at or after its
start, and every still-open attribute started at or before the current
output length. -/
def InvLR (L : LineRenderer) : Prop :=
  (∀ a ∈ L.attribs, a.Start ≤ a.End) ∧
  (∀ p ∈ L.openTags, ∀ a ∈ p.2, a.Start ≤ L.out.length)

/-- Induction package for `renderFragments`: the invariant is preserved
and the output only grows. -/
def RFragsOK (pfn : PluralFn) (n : ℕ) : Prop :=
  ∀ L fs L', InvLR L → renderFragments pfn n L fs = .ok L' →
    InvLR L' ∧ L.out.length ≤ L'.out.length

/-- Induction package for `renderFragment`. -/
def RFragOK (pfn : PluralFn) (n : ℕ) : Prop :=
  ∀ L f L', InvLR L → renderFragment pfn n L f = .ok L' →
    InvLR L' ∧ L.out.length ≤ L'.out.length

/-- Induction package for `renderMarkupTag`. -/
def RTagOK (pfn : PluralFn) (n : ℕ) : Prop :=
  ∀ L t L', InvLR L → renderMarkupTag pfn n L t = .ok L' →
    InvLR L' ∧ L.out.length ≤ L'.out.length

/-- Induction package for `openTagFull`. -/
def ROpenOK (pfn : PluralFn) (n : ℕ) : Prop :=
  ∀ L name props L', InvLR L → openTagFull pfn n L name props = .ok L' →
    InvLR L' ∧ L.out.length ≤ L'.out.length

/-- Induction package for `renderSelectFF`. -/
def RSelOK (pfn : PluralFn) (n : ℕ) : Prop :=
  ∀ L props L', InvLR L → renderSelectFF pfn n L props = .ok L' →
    InvLR L' ∧ L.out.length ≤ L'.out.length

/-- Induction package for `renderPluralFF`. -/
def RPlurOK (pfn : PluralFn) (n : ℕ) : Prop :=
  ∀ L props cardinal L', InvLR L → renderPluralFF pfn n L props cardinal = .ok L' →
    InvLR L' ∧ L.out.length ≤ L'.out.length

/-- Induction package for `renderFFValue`. -/
def RFFVOK (pfn : PluralFn) (n : ℕ) : Prop :=
  ∀ L v input L', InvLR L → renderFFValue pfn n L v input = .ok L' →
    InvLR L' ∧ L.out.length ≤ L'.out.length

/-- Induction package for `renderFFFrags`. -/
def RFFFOK (pfn : PluralFn) (n : ℕ) : Prop :=
  ∀ L fs input L', InvLR L → renderFFFrags pfn n L fs input = .ok L' →
    InvLR L' ∧ L.out.length ≤ L'.out.length

deriving instance DecidableEq for Except

/-! ## Theorems -/

/-- C1: with an empty options buffer, SHOW_OPTIONS calls the handler's
DialogueComplete and returns the NoOptions error; it does not call the
handler's Options, push anything, or advance the PC (the state is
returned unchanged). -/
theorem execShowOptions_empty (chooser : List Opt → Except ErrKind ℤ) (st : VMSt)
    (h : st.options = []) :
    execShowOptions chooser st = ([.dialogueComplete], st, some .noOptions) := by
  simp [execShowOptions, h]

/-- Witness for C1 at a concrete empty-buffer state. -/
theorem execShowOptions_empty_witness :
    execShowOptions (fun _ => .ok 0) ⟨0, [], []⟩ =
      ([.dialogueComplete], ⟨0, [], []⟩, some .noOptions) :=
  execShowOptions_empty (fun _ => .ok 0) ⟨0, [], []⟩ rfl

/-- C2: with a non-empty options buffer SHOW_OPTIONS asks the handler's
Options (and only it) for an index; an in-range index pushes the chosen
option's DestinationNode, clears the buffer and advances the PC by one;
an out-of-range index is an error. -/
theorem execShowOptions_nonempty (chooser : List Opt → Except ErrKind ℤ) (st : VMSt)
    (h : st.options ≠ []) :
    (execShowOptions chooser st).1 = [.optionsCall st.options] ∧
    (∀ i : ℤ, chooser st.options = .ok i →
      (0 ≤ i → i < (st.options.length : ℤ) →
        execShowOptions chooser st =
          ([.optionsCall st.options],
            { st with
              stack := .s ((st.options.getD i.toNat default).DestinationNode) :: st.stack
              options := []
              pc := st.pc + 1 },
            none)) ∧
      ((i < 0 ∨ (st.options.length : ℤ) ≤ i) →
        (execShowOptions chooser st).2.2 =
          some (.other ("selected option " ++ toString i ++ " out of bounds")))) := by
  refine ⟨?_, ?_⟩
  · unfold execShowOptions
    simp only [h, if_neg h]
    cases chooser st.options with
    | error e => rfl
    | ok i =>
        by_cases hi : i < 0 ∨ (st.options.length : ℤ) ≤ i <;> simp [hi]
  · intro i hc
    refine ⟨?_, ?_⟩
    · intro h0 hlen
      have hni : ¬(i < 0 ∨ (st.options.length : ℤ) ≤ i) := by omega
      unfold execShowOptions
      simp [h, hc, hni]
    · intro hi
      unfold execShowOptions
      simp [h, hc, hi]

/-- Witness for C2 with a buffer of exactly one option and a handler that
chooses index 0. -/
theorem execShowOptions_nonempty_witness :
    (execShowOptions (fun _ => .ok 0)
        ⟨0, [], [⟨0, ⟨"line0", []⟩, "DestNode", true⟩]⟩).1 =
      [.optionsCall [⟨0, ⟨"line0", []⟩, "DestNode", true⟩]] ∧
    execShowOptions (fun _ => .ok 0) ⟨0, [], [⟨0, ⟨"line0", []⟩, "DestNode", true⟩]⟩ =
      ([.optionsCall [⟨0, ⟨"line0", []⟩, "DestNode", true⟩]],
        ⟨1, [.s "DestNode"], []⟩, none) := by
  have h := execShowOptions_nonempty (fun _ => .ok 0)
    ⟨0, [], [⟨0, ⟨"line0", []⟩, "DestNode", true⟩]⟩ (by decide)
  exact ⟨h.1, ((h.2 0 rfl).1 (by decide) (by decide)).trans (by decide)⟩

/-- C4: STORE_VARIABLE with a non-empty stack peeks (does not pop) the
top value into the named variable and advances the PC, leaving the stack
unchanged; with an empty stack it returns StackUnderflow and stores
nothing. -/
theorem execStoreVariable_spec (k : String) (st : VMSt) (vars : VarStorage) :
    (∀ v rest, st.stack = v :: rest →
      execStoreVariable k st vars = ({ st with pc := st.pc + 1 }, setValue vars k v, none) ∧
      (execStoreVariable k st vars).1.stack = st.stack ∧
      getValue (setValue vars k v) k = some v) ∧
    (st.stack = [] → execStoreVariable k st vars = (st, vars, some .stackUnderflow)) := by
  constructor
  · intro v rest hs
    refine ⟨?_, ?_, ?_⟩
    · unfold execStoreVariable
      rw [hs]
    · unfold execStoreVariable
      rw [hs]
    · simp [getValue, setValue]
  · intro hs
    unfold execStoreVariable
    rw [hs]

/-- Witness for C4: a concrete one-element stack and the empty stack. -/
theorem execStoreVariable_spec_witness :
    execStoreVariable "x" ⟨0, [.i 7], []⟩ [] =
      (⟨1, [.i 7], []⟩, [("x", .i 7)], none) ∧
    getValue (setValue [] "x" (.i 7)) "x" = some (.i 7) ∧
    execStoreVariable "x" ⟨0, [], []⟩ [] = (⟨0, [], []⟩, [], some .stackUnderflow) := by
  have h := execStoreVariable_spec "x" ⟨0, [.i 7], []⟩ []
  have h2 := execStoreVariable_spec "x" ⟨0, [], []⟩ []
  exact ⟨(h.1 (.i 7) [] rfl).1, (h.1 (.i 7) [] rfl).2.2, h2.2 rfl⟩

/-- C5: PUSH_VARIABLE pushes the stored value when the variable is set
(regardless of any initial value), else the program's initial value when
one exists, else null; the PC advances in every case. -/
theorem execPushVariable_spec (k : String) (st : VMSt) (vars : VarStorage)
    (iv : List (String × OperandValue)) :
    (∀ v, getValue vars k = some v →
      execPushVariable k st vars iv =
        ({ st with pc := st.pc + 1, stack := v :: st.stack }, none)) ∧
    (getValue vars k = none →
      (∀ w, (iv.find? (fun p => p.1 == k)).map Prod.snd = some w →
        execPushVariable k st vars iv =
          ({ st with pc := st.pc + 1, stack := operandValueToValue w :: st.stack }, none)) ∧
      ((iv.find? (fun p => p.1 == k)).map Prod.snd = none →
        execPushVariable k st vars iv =
          ({ st with pc := st.pc + 1, stack := .null :: st.stack }, none))) := by
  refine ⟨?_, ?_⟩
  · intro v hv
    unfold execPushVariable
    rw [hv]
  · intro hv
    refine ⟨?_, ?_⟩
    · intro w hw
      unfold execPushVariable
      rw [hv, hw]
    · intro hw
      unfold execPushVariable
      rw [hv, hw]

/-- Witness for C5: a stored value shadows an initial value; an initial
value is used when nothing is stored; null is pushed when neither
exists. -/
theorem execPushVariable_spec_witness :
    execPushVariable "v" ⟨0, [], []⟩ [("v", .i 3)] [("v", .ob true)] =
      (⟨1, [.i 3], []⟩, none) ∧
    execPushVariable "v" ⟨0, [], []⟩ [] [("v", .ob true)] =
      (⟨1, [.b true], []⟩, none) ∧
    execPushVariable "v" ⟨0, [], []⟩ [] [] = (⟨1, [.null], []⟩, none) := by
  have h1 := execPushVariable_spec "v" ⟨0, [], []⟩ [("v", .i 3)] [("v", .ob true)]
  have h2 := execPushVariable_spec "v" ⟨0, [], []⟩ [] [("v", .ob true)]
  have h3 := execPushVariable_spec "v" ⟨0, [], []⟩ [] []
  exact ⟨h1.1 (.i 3) rfl, (h2.2 rfl).1 (.ob true) rfl, (h3.2 rfl).2 rfl⟩

/-- C6: conversion to bool is total on the value union, with null→false,
bool→identity, float→(non-zero and not NaN), int→non-zero, and
string→non-empty. -/
theorem convertToBool_total_spec :
    (∀ v, ∃ bv, ConvertToBool v = .ok bv) ∧
    ConvertToBool .null = .ok false ∧
    (∀ x, ConvertToBool (.b x) = .ok x) ∧
    (∀ q : ℚ, ConvertToBool (.f32 (some q)) = .ok (decide (q ≠ 0))) ∧
    ConvertToBool (.f32 none) = .ok false ∧
    (∀ q : ℚ, ConvertToBool (.f64 (some q)) = .ok (decide (q ≠ 0))) ∧
    ConvertToBool (.f64 none) = .ok false ∧
    (∀ x : ℤ, ConvertToBool (.i x) = .ok (decide (x ≠ 0))) ∧
    (∀ x : String, ConvertToBool (.s x) = .ok (decide (x ≠ ""))) := by
  refine ⟨?_, rfl, fun _ => rfl, fun _ => rfl, rfl, fun _ => rfl, rfl, fun _ => rfl,
    fun _ => rfl⟩
  intro v
  cases v with
  | null => exact ⟨_, rfl⟩
  | b x => exact ⟨_, rfl⟩
  | f32 x => exact ⟨_, rfl⟩
  | f64 x => exact ⟨_, rfl⟩
  | i x => exact ⟨_, rfl⟩
  | s x => exact ⟨_, rfl⟩

/-- C9: the async adapter's Go succeeds (transitioning to Running and
sending the go message) exactly from Paused; from any other state it
changes nothing and returns the mismatch error (got = current state,
want = Paused, next = Running); from PausedOptions a subsequent
GoWithChoice still succeeds. -/
theorem asyncAdapter_go_spec :
    (∀ a : AsyncAdapter, a.state = .paused →
      a.Go = ({ state := .running, msgs := a.msgs ++ [.goMsg] }, none)) ∧
    (∀ a : AsyncAdapter, a.state ≠ .paused →
      a.Go = (a, some ⟨a.state, .paused, .running⟩)) ∧
    (∀ a : AsyncAdapter, a.state = .pausedOptions →
      (a.Go).1 = a ∧
      ∀ id, ((a.Go).1.GoWithChoice id) =
        ({ state := .running, msgs := a.msgs ++ [.choiceMsg id] }, none)) := by
  refine ⟨?_, ?_, ?_⟩
  · intro a h
    simp [AsyncAdapter.Go, stateTransition, h]
  · intro a h
    simp [AsyncAdapter.Go, stateTransition, h]
  · intro a h
    have hne : a.state ≠ .paused := by rw [h]; intro hc; cases hc
    have hgo : a.Go = (a, some ⟨a.state, .paused, .running⟩) := by
      simp [AsyncAdapter.Go, stateTransition, hne]
    refine ⟨by rw [hgo], ?_⟩
    intro id
    rw [hgo]
    simp [AsyncAdapter.GoWithChoice, stateTransition, h]

/-- Witness for C9 at concrete adapters in each of the four states. -/
theorem asyncAdapter_go_spec_witness :
    AsyncAdapter.Go ⟨.paused, []⟩ = (⟨.running, [.goMsg]⟩, none) ∧
    AsyncAdapter.Go ⟨.running, []⟩ =
      (⟨.running, []⟩, some ⟨.running, .paused, .running⟩) ∧
    AsyncAdapter.Go ⟨.stopped, []⟩ =
      (⟨.stopped, []⟩, some ⟨.stopped, .paused, .running⟩) ∧
    AsyncAdapter.Go ⟨.pausedOptions, []⟩ =
      (⟨.pausedOptions, []⟩, some ⟨.pausedOptions, .paused, .running⟩) ∧
    AsyncAdapter.GoWithChoice (AsyncAdapter.Go ⟨.pausedOptions, []⟩).1 2 =
      (⟨.running, [.choiceMsg 2]⟩, none) := by
  have h := asyncAdapter_go_spec
  exact ⟨h.1 ⟨.paused, []⟩ rfl, h.2.1 ⟨.running, []⟩ (by decide),
    h.2.1 ⟨.stopped, []⟩ (by decide), h.2.1 ⟨.pausedOptions, []⟩ (by decide),
    (h.2.2 ⟨.pausedOptions, []⟩ rfl).2 2⟩

/-- C7: `Add` returns the other operand unchanged when either operand is
null; with a (non-null) string operand it concatenates, converting the
non-string side to string; otherwise it performs the numeric addition
`numAddSpec` (and never fails). -/
theorem funcAdd_spec :
    (∀ y, funcAdd .null y = .ok y) ∧
    (∀ x, funcAdd x .null = .ok x) ∧
    (∀ a y, y ≠ .null → funcAdd (.s a) y = .ok (.s (a ++ ConvertToString y))) ∧
    (∀ x bb, x ≠ .null → (∀ t, x ≠ .s t) →
      funcAdd x (.s bb) = .ok (.s (ConvertToString x ++ bb))) ∧
    (∀ x y, x ≠ .null → y ≠ .null → (∀ t, x ≠ .s t) → (∀ t, y ≠ .s t) →
      funcAdd x y = .ok (numAddSpec x y)) := by
  refine ⟨?_, ?_, ?_, ?_, ?_⟩
  · intro y
    simp [funcAdd]
  · intro x
    cases x <;> simp [funcAdd]
  · intro a y hy
    cases y <;> simp_all [funcAdd]
  · intro x bb hx hxs
    cases x with
    | s t => exact absurd rfl (hxs t)
    | _ => simp_all [funcAdd]
  · intro x y hx hy hxs hys
    cases x with
    | null => exact absurd rfl hx
    | s t => exact absurd rfl (hxs t)
    | b xb =>
        cases y with
        | null => exact absurd rfl hy
        | s t => exact absurd rfl (hys t)
        | _ => simp [funcAdd, numAddSpec, ConvertToFloat32, valueToFlt, Bind.bind, Except.bind]
    | f32 xq =>
        cases y with
        | null => exact absurd rfl hy
        | s t => exact absurd rfl (hys t)
        | _ => simp [funcAdd, numAddSpec, ConvertToFloat32, valueToFlt, Bind.bind, Except.bind]
    | f64 xq =>
        cases y with
        | null => exact absurd rfl hy
        | s t => exact absurd rfl (hys t)
        | _ => simp [funcAdd, numAddSpec, ConvertToFloat64, valueToFlt, Bind.bind, Except.bind]
    | i xi =>
        cases y with
        | null => exact absurd rfl hy
        | s t => exact absurd rfl (hys t)
        | _ => simp [funcAdd, numAddSpec, ConvertToInt, valueToInt, Bind.bind, Except.bind]

/-- Witness for C7: concrete null, string, and numeric additions. -/
theorem funcAdd_spec_witness :
    funcAdd .null (.i 5) = .ok (.i 5) ∧
    funcAdd (.f32 (some 2)) .null = .ok (.f32 (some 2)) ∧
    funcAdd (.s "a") (.b true) = .ok (.s "aTrue") ∧
    funcAdd (.b false) (.s "b") = .ok (.s "Falseb") ∧
    funcAdd (.f32 (some 2)) (.i 3) = .ok (.f32 (some 5)) := by
  have h := funcAdd_spec
  refine ⟨h.1 (.i 5), h.2.1 (.f32 (some 2)), ?_, ?_, ?_⟩
  · rw [h.2.2.1 "a" (.b true) (by decide)]
    rfl
  · rw [h.2.2.2.1 (.b false) "b" (by decide) (fun t => by simp)]
    rfl
  · rw [h.2.2.2.2 (.f32 (some 2)) (.i 3) (by decide) (by decide)
      (fun t => by simp) (fun t => by simp)]
    simp [numAddSpec, valueToFlt, fadd]
    norm_num

/-- C8: a substitution token with an in-range index renders the indexed
substitution (0-based); an out-of-range or unparseable index renders the
literal token text, and rendering the fragment never fails. -/
theorem evalSubst_spec :
    (∀ (pfn : PluralFn) (n : ℕ) (L : LineRenderer) (idx : String),
      renderFragment pfn (n + 1) L (.subst idx) =
        .ok (writeString L (evalSubst L.substs idx))) ∧
    (∀ (substs : List String) (idx : String) (k : ℤ), atoi idx = .ok k →
      0 ≤ k → k < (substs.length : ℤ) →
      evalSubst substs idx = substs.getD k.toNat "") ∧
    (∀ (substs : List String) (idx : String) (k : ℤ), atoi idx = .ok k →
      (k < 0 ∨ (substs.length : ℤ) ≤ k) →
      evalSubst substs idx = "\x7b" ++ idx ++ "\x7d") ∧
    (∀ (substs : List String) (idx : String) (e : ErrKind), atoi idx = .error e →
      evalSubst substs idx = "\x7b" ++ idx ++ "\x7d") := by
  refine ⟨fun _ _ _ _ => rfl, ?_, ?_, ?_⟩
  · intro substs idx k hk h0 hlen
    have hni : ¬(k < 0 ∨ (substs.length : ℤ) ≤ k) := by omega
    simp [evalSubst, hk, hni]
  · intro substs idx k hk hr
    simp [evalSubst, hk, hr]
  · intro substs idx e he
    simp [evalSubst, he]

/-- Witness for C8: index 1 of two substitutions is emitted; index 2 and
a non-numeric index pass through literally. -/
theorem evalSubst_spec_witness :
    evalSubst ["a", "bc"] "1" = "bc" ∧
    evalSubst ["a", "bc"] "2" = "\x7b2\x7d" ∧
    evalSubst ["a", "bc"] "x" = "\x7bx\x7d" := by
  have h := evalSubst_spec
  refine ⟨?_, ?_, ?_⟩
  · rw [h.2.1 ["a", "bc"] "1" 1 (by decide) (by decide) (by decide)]
    rfl
  · exact h.2.2.1 ["a", "bc"] "2" 2 (by decide) (by decide)
  · exact h.2.2.2 ["a", "bc"] "x" (.strconvError "x") (by decide)

/-- Helper: every `atoi` failure is a strconv parse error. -/
theorem atoi_error_strconv {str : String} {e : ErrKind} (h : atoi str = .error e) :
    e = .strconvError str := by
  unfold atoi at h
  split at h <;> first
    | (split at h <;> simp_all)
    | simp_all

/-- Helper: every `parseFloatCore` failure is a strconv parse error. -/
theorem parseFloatCore_error_strconv {str : String} {cs : List Char} {e : ErrKind}
    (h : parseFloatCore str cs = .error e) : e = .strconvError str := by
  unfold parseFloatCore at h
  split at h <;> first
    | (split at h <;> simp_all)
    | simp_all

/-- Helper: every `parseFloat` failure is a strconv parse error. -/
theorem parseFloat_error_strconv {str : String} {e : ErrKind}
    (h : parseFloat str = .error e) : e = .strconvError str := by
  unfold parseFloat at h
  split at h
  · rename_i cs _
    cases hc : parseFloatCore str cs with
    | error e' =>
        rw [hc] at h
        cases h
        exact parseFloatCore_error_strconv hc
    | ok q => rw [hc] at h; cases h
  · exact parseFloatCore_error_strconv h
  · exact parseFloatCore_error_strconv h

/-- Helper: `ConvertToBool` never fails on the value union. -/
theorem convertToBool_no_error {v : Value} {e : ErrKind} :
    ConvertToBool v ≠ .error e := by
  cases v <;> simp [ConvertToBool]

/-- Helper: every `ConvertToInt` failure is a strconv parse error. -/
theorem convertToInt_error_strconv {v : Value} {e : ErrKind}
    (h : ConvertToInt v = .error e) : ∃ t, e = .strconvError t := by
  cases v <;> simp [ConvertToInt] at h
  exact ⟨_, atoi_error_strconv h⟩

/-- Helper: every `ConvertToFloat32` failure is a strconv parse error. -/
theorem convertToFloat32_error_strconv {v : Value} {e : ErrKind}
    (h : ConvertToFloat32 v = .error e) : ∃ t, e = .strconvError t := by
  cases v <;> simp [ConvertToFloat32, Except.map] at h
  rename_i str
  cases hp : parseFloat str with
  | error e' =>
      rw [hp] at h
      simp [Except.map] at h
      exact h.symm ▸ ⟨_, parseFloat_error_strconv hp⟩
  | ok q => rw [hp] at h; simp [Except.map] at h

/-- Helper: every `ConvertToFloat64` failure is a strconv parse error. -/
theorem convertToFloat64_error_strconv {v : Value} {e : ErrKind}
    (h : ConvertToFloat64 v = .error e) : ∃ t, e = .strconvError t := by
  cases v <;> simp [ConvertToFloat64, Except.map] at h
  rename_i str
  cases hp : parseFloat str with
  | error e' =>
      rw [hp] at h
      simp [Except.map] at h
      exact h.symm ▸ ⟨_, parseFloat_error_strconv hp⟩
  | ok q => rw [hp] at h; simp [Except.map] at h

/-- Helper: anything is assignable to `interface\x7b\x7d`. -/
theorem assignable_pany (v : Value) : valueAssignableTo v .pany = true := by
  cases v <;> rfl

/-- Helper: every `convertParam` failure is a strconv parse error. -/
theorem convertParam_error_strconv {pt : ParamType} {v : Value} {e : ErrKind}
    (h : convertParam pt v = .error e) : ∃ t, e = .strconvError t := by
  unfold convertParam at h
  split at h
  · cases h
  · split at h
    · cases h
    · rename_i hass
      cases pt with
      | pstring => cases h
      | pfloat32 =>
          cases hc : ConvertToFloat32 v with
          | error e' =>
              rw [hc] at h
              simp [Except.map] at h
              exact h.symm ▸ convertToFloat32_error_strconv hc
          | ok q => rw [hc] at h; simp [Except.map] at h
      | pfloat64 =>
          cases hc : ConvertToFloat64 v with
          | error e' =>
              rw [hc] at h
              simp [Except.map] at h
              exact h.symm ▸ convertToFloat64_error_strconv hc
          | ok q => rw [hc] at h; simp [Except.map] at h
      | pint =>
          cases hc : ConvertToInt v with
          | error e' =>
              rw [hc] at h
              simp [Except.map] at h
              exact h.symm ▸ convertToInt_error_strconv hc
          | ok q => rw [hc] at h; simp [Except.map] at h
      | pbool =>
          cases hc : ConvertToBool v with
          | error e' => exact absurd hc convertToBool_no_error
          | ok q => rw [hc] at h; simp [Except.map] at h
      | pany => exact absurd (assignable_pany v) (by simp_all)

/-- Helper: every error of the CALL_FUNC argument-conversion loop is
stack underflow or a strconv parse error. -/
theorem convertArgs_error_strconv (f : GoFunc) :
    ∀ (n : ℕ) (stack stk : List Value) (e : ErrKind),
      convertArgs f n stack = (stk, .error e) →
      e = .stackUnderflow ∨ ∃ t, e = .strconvError t := by
  intro n
  induction n with
  | zero => intro stack stk e h; simp [convertArgs] at h
  | succ n ih =>
      intro stack stk e h
      cases stack with
      | nil =>
          unfold convertArgs at h
          simp only [Prod.mk.injEq, Except.error.injEq] at h
          exact Or.inl h.2.symm
      | cons v rest =>
          unfold convertArgs at h
          cases hc : convertParam (argTypeFor f n) v with
          | error e' =>
              rw [hc] at h
              simp only [Prod.mk.injEq, Except.error.injEq] at h
              exact h.2 ▸ Or.inr (convertParam_error_strconv hc)
          | ok p =>
              rw [hc] at h
              cases hr : convertArgs f n rest with
              | _ stk2 r =>
                  rw [hr] at h
                  cases r with
                  | error e2 =>
                      simp only [Prod.mk.injEq, Except.error.injEq] at h
                      exact h.2 ▸ ih rest stk2 e2 (by rw [hr])
                  | ok ps => simp at h

/-- C3 counterexample: calling a `float32`-parameter function with the
string argument "abc" fails with the strconv parse error propagated
unchanged — not with the FunctionArgMismatch kind the claim states. -/
theorem execCallFunc_convErr_cex :
    execCallFunc "foo" [("foo", oneFloatFunc)] ⟨0, [.i 1, .s "abc"], []⟩ =
      (⟨0, [], []⟩, some (.strconvError "abc")) ∧
    ErrKind.strconvError "abc" ≠ .functionArgMismatch := by
  constructor
  · rfl
  · decide

/-- C3 (amended): a failed argument conversion in CALL_FUNC propagates
the conversion's own error unchanged (stack underflow aside, always a
strconv parse error), and that error is never FunctionArgMismatch. -/
theorem execCallFunc_convErr_propagated (f : GoFunc) (name : String) (st : VMSt)
    (gotx : Value) (rest stk : List Value) (argc : ℤ) (e : ErrKind)
    (hstack : st.stack = gotx :: rest)
    (hargc : ConvertToInt gotx = .ok argc)
    (harity : arityOk f argc = true)
    (hret : retOk f.ret = true)
    (hconv : convertArgs f argc.toNat rest = (stk, .error e)) :
    execCallFunc name [(name, f)] st = ({ st with stack := stk }, some e) ∧
    e ≠ .functionArgMismatch := by
  constructor
  · simp [execCallFunc, hstack, hargc, harity, hret, hconv]
  · rcases convertArgs_error_strconv f argc.toNat rest stk e hconv with h | ⟨t, ht⟩
    · rw [h]; intro hc; cases hc
    · rw [ht]; intro hc; cases hc

/-- Witness for the amended C3 at a concrete call. -/
theorem execCallFunc_convErr_propagated_witness :
    execCallFunc "g" [("g", oneFloatFunc)] ⟨0, [.i 1, .s "xyz"], []⟩ =
      (⟨0, [], []⟩, some (.strconvError "xyz")) ∧
    ErrKind.strconvError "xyz" ≠ .functionArgMismatch := by
  have h := execCallFunc_convErr_propagated oneFloatFunc "g" ⟨0, [.i 1, .s "xyz"], []⟩
    (.i 1) [.s "xyz"] [] 1 (.strconvError "xyz") rfl rfl (by decide) (by decide) (by rfl)
  exact h

/-! ### Renderer invariant lemmas -/

/-- Helper: destructuring a successful `Except` bind. -/
theorem exceptBind_ok {ε α β : Type} {x : Except ε α} {f : α → Except ε β} {bb : β}
    (h : (x >>= f) = .ok bb) : ∃ a, x = .ok a ∧ f a = .ok bb := by
  cases x with
  | error e => exact Except.noConfusion h
  | ok a => exact ⟨a, rfl, h⟩

/-- Helper: `getLast?` returns a member. -/
theorem mem_of_getLast?_eq_some {α : Type} {l : List α} {a : α}
    (h : l.getLast? = some a) : a ∈ l := by
  induction l with
  | nil => cases h
  | cons x xs ih =>
      cases xs with
      | nil =>
          simp only [List.getLast?_singleton, Option.some.injEq] at h
          simp [h]
      | cons y ys =>
          rw [List.getLast?_cons_cons] at h
          exact List.mem_cons_of_mem x (ih h)

/-- Helper: the output only grows under `writeString`. -/
theorem writeString_le (L : LineRenderer) (s : String) :
    L.out.length ≤ (writeString L s).out.length := by
  simp [writeString, String.length_append]

/-- Helper: `writeString` preserves the renderer invariant. -/
theorem invLR_writeString {L : LineRenderer} (h : InvLR L) (s : String) :
    InvLR (writeString L s) := by
  obtain ⟨h1, h2⟩ := h
  refine ⟨h1, ?_⟩
  intro p hp a ha
  exact le_trans (h2 p hp a ha) (writeString_le L s)

/-- Helper: members of `lookupTags` come from the open-tags map. -/
theorem mem_lookupTags {m : List (String × List Attribute)} {name : String} {a : Attribute}
    (h : a ∈ lookupTags m name) : ∃ p ∈ m, a ∈ p.2 := by
  unfold lookupTags at h
  cases hf : m.find? (fun p => p.1 == name) with
  | none => rw [hf] at h; simp at h
  | some p => rw [hf] at h; exact ⟨p, List.mem_of_find?_eq_some hf, h⟩

/-- Helper: members of `setTags` carry the new list or come from the old
map. -/
theorem mem_setTags {m : List (String × List Attribute)} {name : String}
    {as : List Attribute} {p : String × List Attribute}
    (h : p ∈ setTags m name as) : p.2 = as ∨ p ∈ m := by
  unfold setTags at h
  split at h
  · rcases List.mem_map.1 h with ⟨q, hq, hqe⟩
    by_cases hb : (q.1 == name) = true
    · rw [if_pos hb] at hqe
      left
      rw [← hqe]
    · rw [if_neg hb] at hqe
      right
      rw [← hqe]
      exact hq
  · rcases List.mem_append.1 h with hm | hs
    · right; exact hm
    · left
      simp at hs
      rw [hs]

/-- Helper: `openTagOp` preserves the invariant and the output. -/
theorem invLR_openTagOp {L : LineRenderer} (h : InvLR L) (name : String)
    (props : List (String × String)) : InvLR (openTagOp L name props) := by
  obtain ⟨h1, h2⟩ := h
  refine ⟨h1, ?_⟩
  intro p hp a ha
  show a.Start ≤ L.out.length
  rcases mem_setTags hp with hpe | hpm
  · rw [hpe] at ha
    rcases List.mem_append.1 ha with hold | hnew
    · rcases mem_lookupTags hold with ⟨q, hq, haq⟩
      exact h2 q hq a haq
    · simp at hnew
      rw [hnew]
  · exact h2 p hpm a ha

/-- Helper: `closeTagOp` preserves the invariant and the output. -/
theorem invLR_closeTagOp {L L' : LineRenderer} {name : String}
    (h : InvLR L) (hc : closeTagOp L name = .ok L') :
    InvLR L' ∧ L'.out = L.out := by
  obtain ⟨h1, h2⟩ := h
  simp only [closeTagOp] at hc
  cases hg : (lookupTags L.openTags name).getLast? with
  | none => rw [hg] at hc; cases hc
  | some a =>
      rw [hg] at hc
      rw [Except.ok.injEq] at hc
      subst hc
      refine ⟨⟨?_, ?_⟩, rfl⟩
      · intro a' ha'
        rcases List.mem_append.1 ha' with hold | hnew
        · exact h1 a' hold
        · simp at hnew
          rw [hnew]
          show a.Start ≤ L.out.length
          rcases mem_lookupTags (mem_of_getLast?_eq_some hg) with ⟨q, hq, haq⟩
          exact h2 q hq a haq
      · intro p hp a' ha'
        show a'.Start ≤ L.out.length
        rcases mem_setTags hp with hpe | hpm
        · rw [hpe] at ha'
          rcases mem_lookupTags (List.mem_of_mem_dropLast ha') with ⟨q, hq, haq⟩
          exact h2 q hq a' haq
        · exact h2 p hpm a' ha'

/-- Helper: `closeAllOp` preserves the invariant and the output. -/
theorem invLR_closeAllOp {L : LineRenderer} (h : InvLR L) : InvLR (closeAllOp L) := by
  obtain ⟨h1, h2⟩ := h
  refine ⟨?_, ?_⟩
  · intro a ha
    rcases List.mem_append.1 ha with hold | hnew
    · exact h1 a hold
    · rcases List.mem_map.1 hnew with ⟨a0, ha0, hae⟩
      rcases List.mem_flatten.1 ha0 with ⟨s, hs, ha0s⟩
      rcases List.mem_map.1 hs with ⟨p, hp, hpe⟩
      rw [← hae]
      show a0.Start ≤ L.out.length
      exact h2 p hp a0 (hpe.symm ▸ ha0s)
  · intro p hp
    exact absurd hp (List.not_mem_nil p)

/-- Helper: the mutual induction over fuel — every renderer function
preserves the invariant, and the output only grows. -/
theorem renderAll_inv (pfn : PluralFn) :
    ∀ n : ℕ, RFragsOK pfn n ∧ RFragOK pfn n ∧ RTagOK pfn n ∧ ROpenOK pfn n ∧
      RSelOK pfn n ∧ RPlurOK pfn n ∧ RFFVOK pfn n ∧ RFFFOK pfn n := by
  intro n
  induction n with
  | zero =>
      refine ⟨?_, ?_, ?_, ?_, ?_, ?_, ?_, ?_⟩
      · intro L fs L' _ h; exact Except.noConfusion h
      · intro L f L' _ h; exact Except.noConfusion h
      · intro L t L' _ h; exact Except.noConfusion h
      · intro L name props L' _ h; exact Except.noConfusion h
      · intro L props L' _ h; exact Except.noConfusion h
      · intro L props cardinal L' _ h; exact Except.noConfusion h
      · intro L v input L' _ h; exact Except.noConfusion h
      · intro L fs input L' _ h; exact Except.noConfusion h
  | succ n ih =>
      obtain ⟨ihFs, ihF, ihT, ihO, ihSel, ihPl, ihFFV, ihFFF⟩ := ih
      refine ⟨?_, ?_, ?_, ?_, ?_, ?_, ?_, ?_⟩
      -- renderFragments
      · intro L fs L' hInv h
        cases fs with
        | nil =>
            simp only [renderFragments] at h
            rw [Except.ok.injEq] at h
            subst h
            exact ⟨hInv, le_refl _⟩
        | cons f fs =>
            simp only [renderFragments] at h
            obtain ⟨L1, hf, hfs⟩ := exceptBind_ok h
            obtain ⟨hI1, hl1⟩ := ihF L f L1 hInv hf
            obtain ⟨hI2, hl2⟩ := ihFs L1 fs L' hI1 hfs
            exact ⟨hI2, le_trans hl1 hl2⟩
      -- renderFragment
      · intro L f L' hInv h
        cases f with
        | escaped s =>
            simp only [renderFragment] at h
            rw [Except.ok.injEq] at h
            subst h
            exact ⟨invLR_writeString hInv _, writeString_le _ _⟩
        | markup t =>
            simp only [renderFragment] at h
            exact ihT L t L' hInv h
        | subst idx =>
            simp only [renderFragment] at h
            rw [Except.ok.injEq] at h
            subst h
            exact ⟨invLR_writeString hInv _, writeString_le _ _⟩
        | text s =>
            simp only [renderFragment] at h
            rw [Except.ok.injEq] at h
            subst h
            exact ⟨invLR_writeString hInv _, writeString_le _ _⟩
      -- renderMarkupTag
      · intro L t L' hInv h
        cases t with
        | mk osl name props csl =>
            simp only [renderMarkupTag] at h
            split_ifs at h with hsel hplu hord hca hos hcs hnm
            · exact ihSel L props L' hInv h
            · exact ihPl L props true L' hInv h
            · exact ihPl L props false L' hInv h
            · rw [Except.ok.injEq] at h
              subst h
              exact ⟨invLR_closeAllOp hInv, le_refl _⟩
            · obtain ⟨hI, ho⟩ := invLR_closeTagOp hInv h
              exact ⟨hI, le_of_eq (congrArg String.length ho.symm)⟩
            · obtain ⟨L1, hO, hC⟩ := exceptBind_ok h
              obtain ⟨hI1, hl1⟩ := ihO L name props L1 hInv hO
              obtain ⟨hI2, ho⟩ := invLR_closeTagOp hI1 hC
              exact ⟨hI2, le_trans hl1 (le_of_eq (congrArg String.length ho.symm))⟩
            · exact ihO L name props L' hInv h
            · rw [Except.ok.injEq] at h
              subst h
              exact ⟨invLR_writeString hInv _, writeString_le _ _⟩
      -- openTagFull
      · intro L name props L' hInv h
        simp only [openTagFull] at h
        obtain ⟨m, _, h2⟩ := exceptBind_ok h
        rw [Except.ok.injEq] at h2
        subst h2
        exact ⟨invLR_openTagOp hInv _ _, le_refl _⟩
      -- renderSelectFF
      · intro L props L' hInv h
        simp only [renderSelectFF] at h
        obtain ⟨input, _, h2⟩ := exceptBind_ok h
        obtain ⟨val, _, h3⟩ := exceptBind_ok h2
        exact ihFFV L val input L' hInv h3
      -- renderPluralFF
      · intro L props cardinal L' hInv h
        simp only [renderPluralFF] at h
        obtain ⟨input, _, h2⟩ := exceptBind_ok h
        obtain ⟨key, _, h3⟩ := exceptBind_ok h2
        obtain ⟨val, _, h4⟩ := exceptBind_ok h3
        exact ihFFV L val input L' hInv h4
      -- renderFFValue
      · intro L v input L' hInv h
        cases v with
        | str frags =>
            simp only [renderFFValue] at h
            exact ihFFF L frags input L' hInv h
        | subst idx =>
            simp only [renderFFValue] at h
            rw [Except.ok.injEq] at h
            subst h
            exact ⟨invLR_writeString hInv _, writeString_le _ _⟩
      -- renderFFFrags
      · intro L fs input L' hInv h
        cases fs with
        | nil =>
            simp only [renderFFFrags] at h
            rw [Except.ok.injEq] at h
            subst h
            exact ⟨hInv, le_refl _⟩
        | cons v vs =>
            simp only [renderFFFrags] at h
            split at h
            · obtain ⟨hI1, hl1⟩ :=
                ihFFF (writeString L input) vs input L' (invLR_writeString hInv input) h
              exact ⟨hI1, le_trans (writeString_le L input) hl1⟩
            · obtain ⟨L1, hf, hfs⟩ := exceptBind_ok h
              obtain ⟨hI1, hl1⟩ := ihF L v L1 hInv hf
              obtain ⟨hI2, hl2⟩ := ihFFF L1 vs input L' hI1 hfs
              exact ⟨hI2, le_trans hl1 hl2⟩

/-- C10: every attribute of the AttributedString produced by a
successful render closes at or after the position where it opened
(End ≥ Start). -/
theorem renderLine_attribute_ranges (pfn : PluralFn) (fuel : ℕ) (substs : List String)
    (frags : List Fragment) (ast : AttributedString)
    (h : renderLine pfn fuel substs frags = .ok ast) :
    ∀ a ∈ ast.Attributes, a.Start ≤ a.End := by
  unfold renderLine at h
  cases hr : renderFragments pfn fuel ⟨"", [], [], substs⟩ frags with
  | error e => rw [hr] at h; cases h
  | ok L =>
      rw [hr] at h
      rw [Except.ok.injEq] at h
      subst h
      have h0 : InvLR ⟨"", [], [], substs⟩ := by
        constructor <;> intro x hx <;> exact absurd hx (List.not_mem_nil x)
      exact fun a ha => ((renderAll_inv pfn fuel).1 _ frags L h0 hr).1.1 a ha

/-- Witness for C10: a concrete render of `[b]hi[/b]` yields the
attribute (0, 2), whose Start is at most its End. -/
theorem renderLine_attribute_ranges_witness :
    (Attribute.mk 0 2 "b" []).Start ≤ (Attribute.mk 0 2 "b" []).End := by
  have h := renderLine_attribute_ranges (fun _ _ => .error (.other "")) 5 []
    [.markup (.mk false "b" [] false), .text "hi", .markup (.mk true "b" [] false)]
    ⟨"hi", [⟨0, 2, "b", []⟩]⟩ (by rfl)
  exact h ⟨0, 2, "b", []⟩ (by simp)

end Yarn
